import Mathlib

/-!
Shallow embedding of the Incremental Transcript Synchronization Engine of
`src/core/realtime_typing_manager.py` and the configuration loading of
`src/core/config.py`.

Python strings are modelled as `List Char`; wall-clock times (Python floats
from `time.time()`) as rationals `ℚ`; the sequence of primitive operations
sent to the edit sink (`pyautogui.typewrite` / batched `press('backspace')`)
as a `List EditOp`.  A possible sink failure (an exception raised by the
k-th primitive operation) is modelled by an `Option Nat` argument: `some k`
means the sink raises while executing operation number `k` (0-based) of the
planned operation list, so exactly the first `k` operations take effect and
the corresponding `except` handler of the Python code runs.
-/

namespace STT

/-- Whitespace characters: the ASCII part of Python's `str.strip` /
regex `\s` class (space, tab, newline, carriage return, vertical tab,
form feed). -/
def pySpace (c : Char) : Bool :=
  c == ' ' || c == '\t' || c == '\n' || c == '\r' || c == '\x0b' || c == '\x0c'

/-- The character class `[.!?\s]` of the regex in `normalize`
(src/core/realtime_typing_manager.py line 79). -/
def pyPunctSpace (c : Char) : Bool :=
  pySpace c || c == '.' || c == '!' || c == '?'

/-- ASCII lowercasing of one character, as Python's `str.lower` acts on
the ASCII range. -/
def pyLowerChar (c : Char) : Char :=
  if 'A' ≤ c ∧ c ≤ 'Z' then Char.ofNat (c.toNat + 32) else c

/-- Python `s.strip()`: remove leading and trailing whitespace. -/
def pyStrip (s : List Char) : List Char :=
  List.rdropWhile pySpace (s.dropWhile pySpace)

/-- Python `re.sub(r"[.!?\s]+$", "", s)`: remove the maximal trailing run
of characters in the class `[.!?\s]`. -/
def rstripPunctSpace (s : List Char) : List Char :=
  List.rdropWhile pyPunctSpace s

/-- Helper for `collapseWS`: scan the string left to right; the flag
records whether the previous character belonged to a whitespace run (in
which case further whitespace of the same run is dropped). -/
def collapseAux : Bool → List Char → List Char
  | _, [] => []
  | inRun, c :: rest =>
    if pySpace c then
      if inRun then collapseAux true rest
      else ' ' :: collapseAux true rest
    else c :: collapseAux false rest

/-- Python `re.sub(r"\s+", " ", s)`: replace every maximal run of
whitespace characters by a single space. -/
def collapseWS (s : List Char) : List Char :=
  collapseAux false s

/-- The local helper `normalize` of `_is_redundant_with_finalized`
(src/core/realtime_typing_manager.py lines 77-81): strip, lowercase,
remove trailing punctuation/whitespace, collapse whitespace runs. -/
def normalize (s : List Char) : List Char :=
  collapseWS (rstripPunctSpace ((pyStrip s).map pyLowerChar))

/-- Python's guard `not text or not text.strip()`: text is empty or
consists only of whitespace. -/
def isBlank (s : List Char) : Bool :=
  s.all pySpace

/-- Python `new.startswith(old)` on lists: `pyStartsWith s pre` is true
iff `pre` is a prefix of `s`. -/
def pyStartsWith (s pre : List Char) : Bool :=
  match pre, s with
  | [], _ => true
  | _ :: _, [] => false
  | p :: ps, c :: cs => p == c && pyStartsWith cs ps

/-- A primitive operation sent to the edit sink: a `pyautogui.typewrite`
call, or one batch of `batch_size` consecutive `pyautogui.press('backspace')`
calls (the body of one iteration of the while loop in
`_replace_typed_text`). -/
inductive EditOp where
  | typewrite : List Char → EditOp
  | backspaces : Nat → EditOp
deriving DecidableEq

/-- Total number of single-character deletions performed by a list of
primitive operations. -/
def totalDeletes (ops : List EditOp) : Nat :=
  (ops.map fun op => match op with
    | .backspaces n => n
    | .typewrite _ => 0).sum

/-- The mutable state of `RealtimeTypingManager`
(src/core/realtime_typing_manager.py lines 26-31): the live text believed
typed, the last finalized sentence, and the end of the suppression window. -/
structure LiveState where
  last_typed_text : List Char
  last_finalized_text : List Char
  suppress_realtime_until : ℚ
deriving DecidableEq

/-- The batch sizes produced by the while loop of `_replace_typed_text`
(lines 135-143): repeatedly delete `min remaining B` characters until
`remaining = 0`.  For `B = 0` the Python loop would not terminate; the
model returns `[]` in that case (all theorems about it assume `0 < B`).
The first argument is fuel making the recursion structural. -/
def backspaceBatchesGo : Nat → Nat → Nat → List Nat
  | 0, _, _ => []
  | fuel + 1, r, B =>
    if r = 0 ∨ B = 0 then []
    else min r B :: backspaceBatchesGo fuel (r - min r B) B

/-- See the doc comment above: the loop runs with `remaining` as fuel,
which suffices because every iteration with `0 < B` deletes at least one
character. -/
def backspaceBatches (remaining B : Nat) : List Nat :=
  backspaceBatchesGo remaining remaining B

/-- The operations emitted by `_replace_typed_text old new` (lines 123-147):
batched backspaces clearing `old` (when `old` is non-empty), then one
`typewrite new` (when `new` is non-empty). -/
def replacePlan (old new : List Char) (B : Nat) : List EditOp :=
  (if old.length > 0 then (backspaceBatches old.length B).map EditOp.backspaces
   else [])
  ++ (if new = [] then [] else [EditOp.typewrite new])

/-- The operations emitted by the body of `_type_realtime_text` (lines
104-115) when diffing incoming `text` against live text `old`: nothing when
equal, the typed suffix when `text` extends `old`, a full replacement
otherwise. -/
def realtimePlan (old text : List Char) (B : Nat) : List EditOp :=
  if text = old then []
  else if pyStartsWith text old then
    (if text.drop old.length = [] then []
     else [EditOp.typewrite (text.drop old.length)])
  else replacePlan old text B

/-- One transition of `_type_realtime_text st text` (lines 92-121), with an
explicit sink-failure model: `failAt = some k` (with `k` before the end of
the plan) means the sink raises while executing operation `k`, so only the
operations before it are applied and the `except` handler of line 119-121
resets `last_typed_text` to the empty string.  Returns the operations
actually applied and the resulting state. -/
def typeRealtimeTextSink (st : LiveState) (text : List Char) (B : Nat)
    (failAt : Option Nat) : List EditOp × LiveState :=
  if text = [] then ([], st)
  else
    match failAt with
    | some k =>
      if k < (realtimePlan st.last_typed_text text B).length then
        ((realtimePlan st.last_typed_text text B).take k,
         { st with last_typed_text := [] })
      else (realtimePlan st.last_typed_text text B,
            { st with last_typed_text := text })
    | none => (realtimePlan st.last_typed_text text B,
               { st with last_typed_text := text })

/-- Failure-free `_type_realtime_text`. -/
def typeRealtimeText (st : LiveState) (text : List Char) (B : Nat) :
    List EditOp × LiveState :=
  typeRealtimeTextSink st text B none

/-- The redundancy check `_is_redundant_with_finalized` (lines 71-90):
true iff the last finalized text is non-empty, both normalized strings are
non-empty, and the normalized finalized text starts with the normalized
candidate. -/
def isRedundantWithFinalized (text lastFin : List Char) : Bool :=
  if lastFin = [] then false
  else
    !(normalize text).isEmpty && !(normalize lastFin).isEmpty
      && pyStartsWith (normalize lastFin) (normalize text)

/-- One call of the public entry point `process_realtime_update` (lines
45-69): guards for blank input, disabled realtime typing, the suppression
window and redundancy, then `_type_realtime_text`.  `now` models
`time.time()` at receipt, `realtimeEnabled` the configuration flag
`basic.realtime_typing`, `B` the configured `max_backspaces_per_update`.
Returns the Python return value, the applied operations, and the new
state. -/
def process_realtime_update (st : LiveState) (text : List Char) (now : ℚ)
    (realtimeEnabled : Bool) (B : Nat) (failAt : Option Nat) :
    Bool × List EditOp × LiveState :=
  if isBlank text then (false, [], st)
  else if !realtimeEnabled then (false, [], st)
  else if now < st.suppress_realtime_until then (false, [], st)
  else if isRedundantWithFinalized text st.last_finalized_text then
    (false, [], st)
  else
    let r := typeRealtimeTextSink st text B failAt
    (true, r.1, r.2)

/-- The operations emitted by the body of `_finalize_realtime_text`
(lines 169-187) when finalizing: diff `final_text + " "` against the live
text, preferring a suffix append over a full replacement. -/
def finalizePlan (old text : List Char) (B : Nat) : List EditOp :=
  if pyStartsWith (text ++ [' ']) old then
    (if (text ++ [' ']).drop old.length = [] then []
     else [EditOp.typewrite ((text ++ [' ']).drop old.length)])
  else replacePlan old (text ++ [' ']) B

/-- One call of `_finalize_realtime_text` (lines 169-200) with the sink
failure model: on success the state is reset (`last_typed_text := []`,
`last_finalized_text := text`, suppression window `now + window`); when the
sink raises at operation `k` of the plan, the `except` handler of lines
198-200 returns `False` and the state is left entirely unchanged. -/
def finalizeRealtimeSink (st : LiveState) (text : List Char)
    (now window : ℚ) (B : Nat) (failAt : Option Nat) :
    Bool × List EditOp × LiveState :=
  match failAt with
  | some k =>
    if k < (finalizePlan st.last_typed_text text B).length then
      (false, (finalizePlan st.last_typed_text text B).take k, st)
    else (true, finalizePlan st.last_typed_text text B,
          ⟨[], text, now + window⟩)
  | none => (true, finalizePlan st.last_typed_text text B,
             ⟨[], text, now + window⟩)

/-- One call of `_type_final_text_direct` (lines 202-211): type
`final_text + " "` and record the finalized text; on a sink failure
return `False` with the state unchanged. -/
def typeFinalTextDirect (st : LiveState) (text : List Char)
    (failAt : Option Nat) : Bool × List EditOp × LiveState :=
  match failAt with
  | some k =>
    if k < 1 then (false, [], st)
    else (true, [EditOp.typewrite (text ++ [' '])],
          { st with last_finalized_text := text })
  | none => (true, [EditOp.typewrite (text ++ [' '])],
             { st with last_finalized_text := text })

/-- One call of the public entry point `finalize_text` (lines 149-167):
guards for blank input and duplicate finalization, then the realtime or
direct finalization path according to configuration. -/
def finalize_text (st : LiveState) (text : List Char) (now window : ℚ)
    (realtimeEnabled : Bool) (B : Nat) (failAt : Option Nat) :
    Bool × List EditOp × LiveState :=
  if isBlank text then (false, [], st)
  else if text = st.last_finalized_text then (false, [], st)
  else if realtimeEnabled then finalizeRealtimeSink st text now window B failAt
  else typeFinalTextDirect st text failAt

/-- The `RealtimeSettings` dataclass of src/core/config.py (lines 67-75):
plain fields with defaults; the dataclass has no validator of any kind. -/
structure RealtimeSettings where
  processing_pause : ℚ := 0.02
  post_speech_silence_duration : ℚ := 0.7
  min_length_of_recording : ℚ := 0.3
  min_gap_between_recordings : ℚ := 0
  finalize_suppress_window : ℚ := 0.5
  max_backspaces_per_update : Int := 512
deriving DecidableEq

/-- The handling of the `realtime` section by `ConfigManager.load_settings`
(src/core/config.py lines 147-175): when the section is present,
`RealtimeSettings(**data['realtime'])` constructs the dataclass with the
supplied field values verbatim — no validation runs and no error can be
raised for out-of-range values; when the section is absent the defaults
are kept.  The `Except` codomain records that loading never fails for any
field values. -/
def loadRealtimeSection (data : Option RealtimeSettings) :
    Except String RealtimeSettings :=
  match data with
  | some r => Except.ok r
  | none => Except.ok {}

/-- A realtime section carrying values the spec calls invalid: a negative
suppression window and a non-positive backspace bound. -/
def invalidRealtimeSettings : RealtimeSettings :=
  { finalize_suppress_window := -1, max_backspaces_per_update := 0 }

/-! ### Character-level facts -/

theorem toNat_charOfNat (n : Nat) (h : n.isValidChar) :
    (Char.ofNat n).toNat = n := by
  rw [Char.ofNat, dif_pos h]
  rfl

theorem le_char_iff (c d : Char) : c ≤ d ↔ c.toNat ≤ d.toNat := by
  rw [Char.le_def]
  exact Iff.rfl

theorem char_eq_iff_toNat (c d : Char) : c = d ↔ c.toNat = d.toNat := by
  constructor
  · intro h
    rw [h]
  · intro h
    rw [← Char.ofNat_toNat c, ← Char.ofNat_toNat d, h]

theorem pySpace_iff (c : Char) : pySpace c = true ↔
    c.toNat = 32 ∨ c.toNat = 9 ∨ c.toNat = 10 ∨ c.toNat = 13 ∨
    c.toNat = 11 ∨ c.toNat = 12 := by
  simp only [pySpace, Bool.or_eq_true, beq_iff_eq, char_eq_iff_toNat,
    show (' ').toNat = 32 from rfl, show ('\t').toNat = 9 from rfl,
    show ('\n').toNat = 10 from rfl, show ('\r').toNat = 13 from rfl,
    show ('\x0b').toNat = 11 from rfl, show ('\x0c').toNat = 12 from rfl]
  tauto

theorem pyPunctSpace_iff (c : Char) : pyPunctSpace c = true ↔
    c.toNat = 32 ∨ c.toNat = 9 ∨ c.toNat = 10 ∨ c.toNat = 13 ∨
    c.toNat = 11 ∨ c.toNat = 12 ∨ c.toNat = 46 ∨ c.toNat = 33 ∨
    c.toNat = 63 := by
  simp only [pyPunctSpace, Bool.or_eq_true, beq_iff_eq, char_eq_iff_toNat,
    pySpace_iff, show ('.').toNat = 46 from rfl,
    show ('!').toNat = 33 from rfl, show ('?').toNat = 63 from rfl]
  tauto

theorem pySpace_of_pySpace_punct (c : Char) (h : pyPunctSpace c = false) :
    pySpace c = false := by
  by_contra hc
  rw [Bool.not_eq_false, pySpace_iff] at hc
  rw [Bool.eq_false_iff] at h
  exact h (by rw [pyPunctSpace_iff]; tauto)

theorem pyLowerChar_toNat (c : Char) (h : 'A' ≤ c ∧ c ≤ 'Z') :
    (pyLowerChar c).toNat = c.toNat + 32 := by
  rw [pyLowerChar, if_pos h]
  have h90 : c.toNat ≤ 90 := by
    have := (le_char_iff c 'Z').1 h.2
    exact this
  exact toNat_charOfNat _ (Or.inl (by omega))

theorem pyLowerChar_cases (c : Char) : pyLowerChar c = c ∨
    (65 ≤ c.toNat ∧ c.toNat ≤ 90 ∧ (pyLowerChar c).toNat = c.toNat + 32) := by
  by_cases h : 'A' ≤ c ∧ c ≤ 'Z'
  · right
    exact ⟨(le_char_iff 'A' c).1 h.1, (le_char_iff c 'Z').1 h.2,
      pyLowerChar_toNat c h⟩
  · left
    rw [pyLowerChar, if_neg h]

theorem pyLowerChar_idem (c : Char) :
    pyLowerChar (pyLowerChar c) = pyLowerChar c := by
  rcases pyLowerChar_cases c with h | ⟨h1, h2, h3⟩
  · rw [h, h]
  · rcases pyLowerChar_cases (pyLowerChar c) with h4 | ⟨h4, h5, h6⟩
    · exact h4
    · omega

theorem pySpace_pyLowerChar (c : Char) :
    pySpace (pyLowerChar c) = pySpace c := by
  rcases pyLowerChar_cases c with h | ⟨h1, h2, h3⟩
  · rw [h]
  · rw [Bool.eq_iff_iff, pySpace_iff, pySpace_iff]
    omega

/-! ### Shape invariants of the normalization pipeline -/

/-- The string does not begin with a whitespace character. -/
def noLeadSpace (s : List Char) : Prop :=
  ∀ c, s.head? = some c → pySpace c = false

/-- The string does not end with a character satisfying `p`. -/
def lastNot (p : Char → Bool) (s : List Char) : Prop :=
  ∀ c, s.getLast? = some c → p c = false

theorem noLeadSpace_dropWhile (s : List Char) :
    noLeadSpace (s.dropWhile pySpace) := by
  intro c hc
  rcases List.eq_nil_or_concat (s.dropWhile pySpace) with h | _
  · rw [h] at hc
    exact absurd hc (by simp)
  · have hne : s.dropWhile pySpace ≠ [] := by
      intro h0
      rw [h0] at hc
      exact absurd hc (by simp)
    have := List.head_dropWhile_not pySpace s hne
    rw [List.head?_eq_head hne] at hc
    cases hc
    exact (Bool.not_eq_true _) ▸ this

theorem head?_of_front {l₁ l₂ : List Char} (h : l₁ <+: l₂) {c : Char}
    (hc : l₁.head? = some c) : l₂.head? = some c := by
  obtain ⟨t, ht⟩ := h
  cases l₁ with
  | nil => exact absurd hc (by simp)
  | cons a r =>
    cases hc
    rw [← ht]
    rfl

theorem noLeadSpace_rdropWhile (p : Char → Bool) (s : List Char)
    (h : noLeadSpace s) : noLeadSpace (List.rdropWhile p s) := by
  intro c hc
  exact h c (head?_of_front ( List.rdropWhile_prefix p s) hc)

theorem lastNot_rdropWhile (p : Char → Bool) (s : List Char) :
    lastNot p (List.rdropWhile p s) := by
  intro c hc
  have hne : List.rdropWhile p s ≠ [] := by
    intro h0
    rw [h0] at hc
    exact absurd hc (by simp)
  have := List.rdropWhile_last_not p s hne
  rw [List.getLast?_eq_getLast _ hne] at hc
  cases hc
  simpa using this

theorem noLeadSpace_map_lower (s : List Char) (h : noLeadSpace s) :
    noLeadSpace (s.map pyLowerChar) := by
  intro c hc
  rw [List.head?_map] at hc
  cases hs : s.head? with
  | none => rw [hs] at hc; exact absurd hc (by simp)
  | some d =>
    rw [hs] at hc
    rw [show (some d).map pyLowerChar = some (pyLowerChar d) from rfl] at hc
    cases hc
    rw [pySpace_pyLowerChar]
    exact h d hs

theorem dropWhile_eq_self_of_noLead (s : List Char) (h : noLeadSpace s) :
    s.dropWhile pySpace = s := by
  cases s with
  | nil => rfl
  | cons c r =>
    rw [List.dropWhile_cons, if_neg]
    rw [h c rfl]
    simp

theorem rdropWhile_eq_self_of_lastNot (p : Char → Bool) (s : List Char)
    (h : lastNot p s) : List.rdropWhile p s = s := by
  rw [List.rdropWhile_eq_self_iff]
  intro hl
  rw [h (s.getLast hl) (List.getLast?_eq_getLast s hl)]
  simp

theorem map_eq_self_of_fixed (s : List Char)
    (h : ∀ c ∈ s, pyLowerChar c = c) : s.map pyLowerChar = s := by
  induction s with
  | nil => rfl
  | cons c r ih =>
    rw [List.map_cons, h c (List.mem_cons_self c r),
      ih fun d hd => h d (List.mem_cons_of_mem c hd)]

/-! ### Facts about whitespace collapapsing -/

/-- Recognizes strings in the image of `collapseAux b`: every whitespace
run is a single `' '`, and when `b = true` the string does not begin with
whitespace at all. -/
def collapsedAfter : Bool → List Char → Bool
  | _, [] => true
  | b, c :: r =>
    if pySpace c then !b && (c == ' ') && collapsedAfter true r
    else collapsedAfter false r

theorem collapsedAfter_collapseAux (s : List Char) :
    ∀ b, collapsedAfter b (collapseAux b s) = true := by
  induction s with
  | nil => intro b; rfl
  | cons c r ih =>
    intro b
    by_cases hc : pySpace c = true
    · cases b with
      | true => rw [collapseAux, if_pos hc, if_pos rfl]; exact ih true
      | false =>
        rw [collapseAux, if_pos hc, if_neg (by simp)]
        rw [collapsedAfter, if_pos (by rfl)]
        simpa using ih true
    · rw [collapseAux, if_neg hc, collapsedAfter, if_neg hc]
      exact ih false

theorem collapseAux_eq_self (s : List Char) :
    ∀ b, collapsedAfter b s = true → collapseAux b s = s := by
  induction s with
  | nil => intro b _; rfl
  | cons c r ih =>
    intro b hb
    by_cases hc : pySpace c = true
    · rw [collapsedAfter, if_pos hc] at hb
      simp only [Bool.and_eq_true, Bool.not_eq_true', beq_iff_eq] at hb
      obtain ⟨⟨hbf, hcs⟩, hr⟩ := hb
      subst hbf
      subst hcs
      rw [collapseAux, if_pos hc, if_neg (by simp)]
      rw [ih true hr]
    · rw [collapsedAfter, if_neg hc] at hb
      rw [collapseAux, if_neg hc, ih false hb]

theorem collapseAux_eq_nil (s : List Char) :
    ∀ b, collapseAux b s = [] → ∀ c ∈ s, pySpace c = true := by
  induction s with
  | nil => intro b _ c hc; exact absurd hc (by simp)
  | cons c r ih =>
    intro b hb d hd
    by_cases hc : pySpace c = true
    · cases b with
      | true =>
        rw [collapseAux, if_pos hc, if_pos rfl] at hb
        rcases List.mem_cons.1 hd with h | h
        · rw [h]; exact hc
        · exact ih true hb d h
      | false =>
        rw [collapseAux, if_pos hc, if_neg (by simp)] at hb
        exact absurd hb (by simp)
    · rw [collapseAux, if_neg hc] at hb
      exact absurd hb (by simp)

theorem getLast?_cons_of_ne {a : Char} {l : List Char} (h : l ≠ []) :
    (a :: l).getLast? = l.getLast? := by
  cases l with
  | nil => exact absurd rfl h
  | cons b r => exact List.getLast?_cons_cons

theorem getLast?_collapseAux (s : List Char) :
    ∀ b, lastNot pySpace s → (collapseAux b s).getLast? = s.getLast? := by
  induction s with
  | nil => intro b _; rfl
  | cons c r ih =>
    intro b hlast
    by_cases hc : pySpace c = true
    · have hr : r ≠ [] := by
        intro h0
        subst h0
        rw [hlast c rfl] at hc
        cases hc
      have hrl : lastNot pySpace r := by
        intro d hd
        exact hlast d ((getLast?_cons_of_ne hr).trans hd)
      have hne : collapseAux true r ≠ [] := by
        intro h0
        obtain ⟨d, hd⟩ := Option.isSome_iff_exists.1
          (List.getLast?_isSome.2 hr)
        have hds : pySpace d = true :=
          collapseAux_eq_nil r true h0 d (List.mem_of_getLast?_eq_some hd)
        rw [hrl d hd] at hds
        cases hds
      cases b with
      | true =>
        rw [collapseAux, if_pos hc, if_pos rfl]
        rw [ih true hrl, getLast?_cons_of_ne hr]
      | false =>
        rw [collapseAux, if_pos hc, if_neg (by simp)]
        rw [getLast?_cons_of_ne hne, ih true hrl, getLast?_cons_of_ne hr]
    · cases hr0 : r with
      | nil =>
        subst hr0
        rw [collapseAux, if_neg hc]
        rfl
      | cons b2 r2 =>
        rw [← hr0]
        have hr : r ≠ [] := by rw [hr0]; simp
        have hrl : lastNot pySpace r := by
          intro d hd
          exact hlast d ((getLast?_cons_of_ne hr).trans hd)
        have hne : collapseAux false r ≠ [] := by
          intro h0
          obtain ⟨d, hd⟩ := Option.isSome_iff_exists.1
            (List.getLast?_isSome.2 hr)
          have hds : pySpace d = true :=
            collapseAux_eq_nil r false h0 d (List.mem_of_getLast?_eq_some hd)
          rw [hrl d hd] at hds
          cases hds
        rw [collapseAux, if_neg hc]
        rw [getLast?_cons_of_ne hne, ih false hrl, getLast?_cons_of_ne hr]

theorem mem_collapseAux (s : List Char) :
    ∀ b c, c ∈ collapseAux b s → c = ' ' ∨ c ∈ s := by
  induction s with
  | nil => intro b c hc; exact absurd hc (by simp [collapseAux])
  | cons a r ih =>
    intro b c hc
    by_cases ha : pySpace a = true
    · cases b with
      | true =>
        rw [collapseAux, if_pos ha, if_pos rfl] at hc
        rcases ih true c hc with h | h
        · exact Or.inl h
        · exact Or.inr (List.mem_cons_of_mem a h)
      | false =>
        rw [collapseAux, if_pos ha, if_neg (by simp)] at hc
        rcases List.mem_cons.1 hc with h | h
        · exact Or.inl h
        · rcases ih true c h with h2 | h2
          · exact Or.inl h2
          · exact Or.inr (List.mem_cons_of_mem a h2)
    · rw [collapseAux, if_neg ha] at hc
      rcases List.mem_cons.1 hc with h | h
      · exact Or.inr (h ▸ List.mem_cons_self a r)
      · rcases ih false c h with h2 | h2
        · exact Or.inl h2
        · exact Or.inr (List.mem_cons_of_mem a h2)

theorem noLeadSpace_collapseAux (s : List Char) (h : noLeadSpace s) :
    noLeadSpace (collapseAux false s) := by
  cases s with
  | nil => intro c hc; exact absurd hc (by simp [collapseAux])
  | cons a r =>
    have ha : pySpace a = false := h a rfl
    intro c hc
    rw [collapseAux, if_neg (by rw [ha]; simp)] at hc
    cases hc
    exact ha

theorem noLeadSpace_normalize (s : List Char) : noLeadSpace (normalize s) := by
  rw [normalize, collapseWS]
  apply noLeadSpace_collapseAux
  rw [rstripPunctSpace]
  apply noLeadSpace_rdropWhile
  apply noLeadSpace_map_lower
  rw [pyStrip]
  apply noLeadSpace_rdropWhile
  exact noLeadSpace_dropWhile s

theorem lastNot_punct_normalize (s : List Char) :
    lastNot pyPunctSpace (normalize s) := by
  rw [normalize, collapseWS]
  intro c hc
  have hu : lastNot pySpace (rstripPunctSpace ((pyStrip s).map pyLowerChar)) :=
    fun d hd => pySpace_of_pySpace_punct d (lastNot_rdropWhile pyPunctSpace _ d hd)
  rw [getLast?_collapseAux _ false hu] at hc
  exact lastNot_rdropWhile pyPunctSpace _ c hc

theorem lower_fixed_normalize (s : List Char) :
    ∀ c ∈ normalize s, pyLowerChar c = c := by
  rw [normalize, collapseWS]
  intro c hc
  rcases mem_collapseAux _ false c hc with h | h
  · rw [h]
    decide
  · rw [rstripPunctSpace] at h
    have hm : c ∈ (pyStrip s).map pyLowerChar :=
      ( List.rdropWhile_prefix pyPunctSpace _).sublist.subset h
    obtain ⟨d, _, rfl⟩ := List.mem_map.1 hm
    exact pyLowerChar_idem d

/-! ### Facts about the edit planner -/

theorem pyStartsWith_nil (s : List Char) : pyStartsWith s [] = true := by
  cases s <;> rfl

theorem pyStartsWith_append (old suf : List Char) :
    pyStartsWith (old ++ suf) old = true := by
  induction old with
  | nil => rw [List.nil_append]; exact pyStartsWith_nil suf
  | cons c r ih => simpa [pyStartsWith] using ih

theorem pyStartsWith_refl (s : List Char) : pyStartsWith s s = true := by
  have := pyStartsWith_append s []
  rwa [List.append_nil] at this

theorem ne_of_pyStartsWith_false {text old : List Char}
    (h : pyStartsWith text old = false) : text ≠ old := by
  intro he
  rw [he, pyStartsWith_refl] at h
  cases h

theorem ne_nil_of_pyStartsWith_false {text old : List Char}
    (h : pyStartsWith text old = false) : old ≠ [] := by
  intro he
  rw [he, pyStartsWith_nil] at h
  cases h

theorem eq_nil_of_append_eq_self {old suf : List Char}
    (h : old ++ suf = old) : suf = [] := by
  have := congrArg List.length h
  rw [List.length_append] at this
  exact List.eq_nil_of_length_eq_zero (by omega)

theorem backspaceBatchesGo_zero (f B : Nat) : backspaceBatchesGo f 0 B = [] := by
  cases f with
  | zero => rfl
  | succ n => rw [backspaceBatchesGo, if_pos (Or.inl rfl)]

theorem backspaceBatchesGo_congr (f1 : Nat) :
    ∀ f2 r B, r ≤ f1 → r ≤ f2 →
      backspaceBatchesGo f1 r B = backspaceBatchesGo f2 r B := by
  induction f1 with
  | zero =>
    intro f2 r B h1 _
    have : r = 0 := by omega
    subst this
    rw [backspaceBatchesGo_zero, backspaceBatchesGo_zero]
  | succ fu ih =>
    intro f2 r B h1 h2
    by_cases hr : r = 0
    · subst hr
      rw [backspaceBatchesGo_zero, backspaceBatchesGo_zero]
    · cases f2 with
      | zero => omega
      | succ g =>
        by_cases hB : B = 0
        · subst hB
          rw [backspaceBatchesGo, if_pos (Or.inr rfl),
            backspaceBatchesGo, if_pos (Or.inr rfl)]
        · rw [backspaceBatchesGo, if_neg (by omega),
            backspaceBatchesGo, if_neg (by omega)]
          congr 1
          have hmin : 0 < min r B := by omega
          exact ih g (r - min r B) B (by omega) (by omega)

theorem backspaceBatches_pos (r B : Nat) (hr : r ≠ 0) (hB : B ≠ 0) :
    backspaceBatches r B
      = min r B :: backspaceBatches (r - min r B) B := by
  rw [backspaceBatches, backspaceBatches]
  cases r with
  | zero => exact absurd rfl hr
  | succ n =>
    rw [backspaceBatchesGo, if_neg (by omega)]
    congr 1
    have hmin : 0 < min (n + 1) B := by omega
    exact backspaceBatchesGo_congr n _ (n + 1 - min (n + 1) B) B
      (by omega) (by omega)

theorem sum_backspaceBatches (B : Nat) (hB : 0 < B) :
    ∀ r, (backspaceBatches r B).sum = r := by
  intro r
  induction r using Nat.strong_induction_on with
  | _ r ih =>
    by_cases hr : r = 0
    · subst hr
      rfl
    · rw [backspaceBatches_pos r B hr (by omega), List.sum_cons,
        ih (r - min r B) (by omega)]
      omega

theorem length_backspaceBatches (B : Nat) (hB : 0 < B) :
    ∀ r, (backspaceBatches r B).length = (r + B - 1) / B := by
  intro r
  induction r using Nat.strong_induction_on with
  | _ r ih =>
    by_cases hr : r = 0
    · subst hr
      rw [show backspaceBatches 0 B = [] from rfl]
      rw [List.length_nil, Nat.div_eq_of_lt (by omega)]
    · rw [backspaceBatches_pos r B hr (by omega), List.length_cons,
        ih (r - min r B) (by omega)]
      by_cases hrB : r ≤ B
      · have h1 : min r B = r := by omega
        rw [h1, Nat.sub_self]
        have h0 : (0 + B - 1) / B = 0 := Nat.div_eq_of_lt (by omega)
        have h2 : (r + B - 1) / B = 1 := by
          apply Nat.div_eq_of_lt_le
          · omega
          · omega
        omega
      · have h1 : min r B = B := by omega
        rw [h1]
        have h2 : r - B + B - 1 = r - 1 := by omega
        have h3 : r + B - 1 = (r - 1) + B := by omega
        rw [h2, h3, Nat.add_div_right _ hB]

theorem mem_backspaceBatches (B : Nat) (hB : 0 < B) :
    ∀ r, ∀ x ∈ backspaceBatches r B, 0 < x ∧ x ≤ B := by
  intro r
  induction r using Nat.strong_induction_on with
  | _ r ih =>
    intro x hx
    by_cases hr : r = 0
    · subst hr
      exact absurd hx (by simp [backspaceBatches, backspaceBatchesGo])
    · rw [backspaceBatches_pos r B hr (by omega)] at hx
      rcases List.mem_cons.1 hx with h | h
      · subst h
        omega
      · exact ih (r - min r B) (by omega) x h

theorem typeRealtimeTextSink_none (st : LiveState) (text : List Char)
    (B : Nat) (h : text ≠ []) :
    typeRealtimeTextSink st text B none
      = (realtimePlan st.last_typed_text text B,
         { st with last_typed_text := text }) := by
  rw [typeRealtimeTextSink, if_neg h]

theorem totalDeletes_map_backspaces (l : List Nat) :
    totalDeletes (l.map EditOp.backspaces) = l.sum := by
  induction l with
  | nil => rfl
  | cons n r ih =>
    rw [List.map_cons, totalDeletes, List.map_cons, List.sum_cons,
      List.sum_cons]
    rw [totalDeletes] at ih
    rw [ih]

/-! ### Claim theorems -/

/-- Claim C9: the comparison normalizer is idempotent: for every string
`s`, `normalize (normalize s) = normalize s`, where `normalize` trims,
lowercases, collapses whitespace runs to single spaces and strips trailing
`.`, `!`, `?` and whitespace. -/
theorem normalize_idempotent (s : List Char) :
    normalize (normalize s) = normalize s := by
  have h1 : noLeadSpace (normalize s) := noLeadSpace_normalize s
  have h2 : lastNot pyPunctSpace (normalize s) := lastNot_punct_normalize s
  have h2s : lastNot pySpace (normalize s) :=
    fun c hc => pySpace_of_pySpace_punct c (h2 c hc)
  have h3 : ∀ c ∈ normalize s, pyLowerChar c = c := lower_fixed_normalize s
  have e1 : pyStrip (normalize s) = normalize s := by
    rw [pyStrip, dropWhile_eq_self_of_noLead _ h1,
      rdropWhile_eq_self_of_lastNot _ _ h2s]
  have e2 : (normalize s).map pyLowerChar = normalize s :=
    map_eq_self_of_fixed _ h3
  have e3 : rstripPunctSpace (normalize s) = normalize s := by
    rw [rstripPunctSpace]
    exact rdropWhile_eq_self_of_lastNot _ _ h2
  have e4 : collapseWS (normalize s) = normalize s := by
    rw [collapseWS]
    apply collapseAux_eq_self
    rw [normalize, collapseWS]
    exact collapsedAfter_collapseAux _ false
  calc normalize (normalize s)
      = collapseWS (rstripPunctSpace
          ((pyStrip (normalize s)).map pyLowerChar)) := rfl
    _ = collapseWS (rstripPunctSpace ((normalize s).map pyLowerChar)) := by
          rw [e1]
    _ = collapseWS (rstripPunctSpace (normalize s)) := by rw [e2]
    _ = collapseWS (normalize s) := by rw [e3]
    _ = normalize s := e4

/-- Claim C1: when the incoming text extends the live text by a non-empty
suffix, `_type_realtime_text` emits exactly one typewrite of that suffix
(no deletions), and afterwards `last_typed_text` equals the new text. -/
theorem append_suffix_plan (st : LiveState) (suffix : List Char) (B : Nat)
    (h : suffix ≠ []) :
    typeRealtimeText st (st.last_typed_text ++ suffix) B
      = ([EditOp.typewrite suffix],
         { st with last_typed_text := st.last_typed_text ++ suffix }) := by
  have htext : st.last_typed_text ++ suffix ≠ [] := by
    intro h0
    exact h (List.append_eq_nil.1 h0).2
  rw [typeRealtimeText, typeRealtimeTextSink_none _ _ _ htext]
  have hne : st.last_typed_text ++ suffix ≠ st.last_typed_text := by
    intro h0
    exact h (eq_nil_of_append_eq_self h0)
  rw [realtimePlan, if_neg hne,
    if_pos (pyStartsWith_append st.last_typed_text suffix),
    List.drop_left, if_neg h]

/-- Claim C1 witness. -/
theorem append_suffix_plan_witness :
    typeRealtimeText ⟨("ab").toList, [], 0⟩
        (("ab").toList ++ ("c").toList) 512
      = ([EditOp.typewrite (("c").toList)],
         ⟨("ab").toList ++ ("c").toList, [], 0⟩) :=
  append_suffix_plan ⟨("ab").toList, [], 0⟩ (("c").toList) 512 (by decide)

/-- Claim C2 (amended: the incoming text must additionally be non-empty,
otherwise the empty-input guard of `_type_realtime_text` returns without
emitting anything): when the non-empty incoming text does not start with
the live text, the plan is the backspace batches clearing the live text
followed by a single insertion; the batches sum to `len(old)`, there are
exactly `⌈len(old)/B⌉` of them (as naturals, `(len(old)+B-1)/B`), and each
is positive and at most `B`. -/
theorem replace_plan_batches (old new f : List Char) (sup : ℚ) (B : Nat)
    (hne : new ≠ []) (hpre : pyStartsWith new old = false) (hB : 0 < B) :
    typeRealtimeText ⟨old, f, sup⟩ new B
      = ((backspaceBatches old.length B).map EditOp.backspaces
          ++ [EditOp.typewrite new], ⟨new, f, sup⟩)
    ∧ (backspaceBatches old.length B).sum = old.length
    ∧ (backspaceBatches old.length B).length = (old.length + B - 1) / B
    ∧ ∀ n ∈ backspaceBatches old.length B, 0 < n ∧ n ≤ B := by
  refine ⟨?_, sum_backspaceBatches B hB _, length_backspaceBatches B hB _,
    mem_backspaceBatches B hB _⟩
  rw [typeRealtimeText, typeRealtimeTextSink_none _ _ _ hne]
  have hold : old ≠ [] := ne_nil_of_pyStartsWith_false hpre
  rw [realtimePlan, if_neg (ne_of_pyStartsWith_false hpre)]
  rw [if_neg (by rw [hpre]; simp)]
  rw [replacePlan, if_pos (List.length_pos.2 hold), if_neg hne]

/-- Claim C2 witness. -/
theorem replace_plan_batches_witness :
    typeRealtimeText ⟨("Hello world").toList, [], 0⟩ ("Goodbye world").toList 1024
      = ((backspaceBatches ("Hello world").toList.length 1024).map
           EditOp.backspaces ++ [EditOp.typewrite (("Goodbye world").toList)],
         ⟨("Goodbye world").toList, [], 0⟩)
    ∧ (backspaceBatches ("Hello world").toList.length 1024).sum
        = ("Hello world").toList.length
    ∧ (backspaceBatches ("Hello world").toList.length 1024).length
        = (("Hello world").toList.length + 1024 - 1) / 1024
    ∧ ∀ n ∈ backspaceBatches ("Hello world").toList.length 1024,
        0 < n ∧ n ≤ 1024 :=
  replace_plan_batches ("Hello world").toList ("Goodbye world").toList [] 0 1024
    (by decide) (by decide) (by decide)

/-- Claim C2 counterexample: at `old = "ab"`, `new = ""` (which does not
start with `"ab"` and differs from it) the code performs no operation at
all, deleting zero characters instead of the claimed `len(old) = 2` and
performing no insertion. -/
theorem replace_plan_empty_counterexample :
    (typeRealtimeText ⟨("ab").toList, [], 0⟩ [] 512).1 = []
    ∧ totalDeletes (typeRealtimeText ⟨("ab").toList, [], 0⟩ [] 512).1
        ≠ ("ab").toList.length := by
  exact ⟨rfl, by decide⟩

/-- Claim C8 (amended: the public planner `_type_realtime_text` treats an
empty new text as a no-op because of its empty-input guard and changes no
state; the deletion behaviour described by the spec is realized only by the
internal helper `_replace_typed_text`, which, called directly on a
non-empty `old` and empty `new`, emits exactly the backspace batches
deleting `len(old)` characters and inserts nothing). -/
theorem empty_new_guard (old f : List Char) (sup : ℚ) (B : Nat)
    (hold : old ≠ []) (hB : 0 < B) :
    typeRealtimeText ⟨old, f, sup⟩ [] B = ([], ⟨old, f, sup⟩)
    ∧ replacePlan old [] B
        = (backspaceBatches old.length B).map EditOp.backspaces
    ∧ totalDeletes (replacePlan old [] B) = old.length := by
  have h2 : replacePlan old [] B
      = (backspaceBatches old.length B).map EditOp.backspaces := by
    rw [replacePlan, if_pos (List.length_pos.2 hold), if_pos rfl,
      List.append_nil]
  refine ⟨?_, h2, ?_⟩
  · rw [typeRealtimeText, typeRealtimeTextSink, if_pos rfl]
  · rw [h2, totalDeletes_map_backspaces, sum_backspaceBatches B hB]

/-- Claim C8 witness. -/
theorem empty_new_guard_witness :
    typeRealtimeText ⟨("a").toList, [], 0⟩ [] 512 = ([], ⟨("a").toList, [], 0⟩)
    ∧ replacePlan ("a").toList [] 512
        = (backspaceBatches ("a").toList.length 512).map EditOp.backspaces
    ∧ totalDeletes (replacePlan ("a").toList [] 512) = ("a").toList.length :=
  empty_new_guard ("a").toList [] 0 512 (by decide) (by decide)

/-- Claim C8 counterexample: at `old = "a"`, `new = ""` the planner emits
no operations, not the claimed `Replace` deleting one character. -/
theorem empty_new_counterexample :
    (typeRealtimeText ⟨("a").toList, [], 0⟩ [] 512).1 = []
    ∧ (typeRealtimeText ⟨("a").toList, [], 0⟩ [] 512).1
        ≠ [EditOp.backspaces 1] := by
  exact ⟨rfl, by decide⟩

/-- Claim C10: an empty or whitespace-only input makes both public entry
points return `False`, emit no operations and leave every state field
unchanged, for every state, time, configuration and sink behaviour. -/
theorem blank_input_noop (st : LiveState) (text : List Char)
    (now window : ℚ) (enabled : Bool) (B : Nat) (failAt : Option Nat)
    (h : isBlank text = true) :
    process_realtime_update st text now enabled B failAt = (false, [], st)
    ∧ finalize_text st text now window enabled B failAt = (false, [], st) := by
  constructor
  · rw [process_realtime_update, if_pos h]
  · rw [finalize_text, if_pos h]

/-- Claim C10 witness. -/
theorem blank_input_noop_witness :
    process_realtime_update ⟨("x").toList, ("y").toList, 1⟩ (" ").toList
        5 true 512 none
      = (false, [], ⟨("x").toList, ("y").toList, 1⟩)
    ∧ finalize_text ⟨("x").toList, ("y").toList, 1⟩ (" ").toList
        5 (1/2) true 512 none
      = (false, [], ⟨("x").toList, ("y").toList, 1⟩) :=
  blank_input_noop ⟨("x").toList, ("y").toList, 1⟩ (" ").toList 5 (1/2)
    true 512 none (by decide)

/-- Claim C4: a realtime update arriving while `now` is before the
suppression deadline is dropped as a true no-op (no operations, no state
change, for any configuration and sink behaviour); and with a suppression
window of zero, the deadline recorded by an accepted finalization at time
`now` suppresses no update arriving at any time `t ≥ now`. -/
theorem suppression_window_noop (st : LiveState) (text text2 : List Char)
    (now t : ℚ) (enabled : Bool) (B : Nat) (failAt : Option Nat) :
    (now < st.suppress_realtime_until →
      process_realtime_update st text now enabled B failAt
        = (false, [], st))
    ∧ (isBlank text2 = false → text2 ≠ st.last_finalized_text → now ≤ t →
        ¬(t < (finalize_text st text2 now 0 true B
                none).2.2.suppress_realtime_until)) := by
  constructor
  · intro hlt
    rw [process_realtime_update]
    by_cases h1 : isBlank text = true
    · rw [if_pos h1]
    · rw [if_neg h1]
      cases enabled with
      | false => rw [if_pos (show (!false) = true from rfl)]
      | true =>
        rw [if_neg (by decide), if_pos hlt]
  · intro hb hdup hle
    rw [finalize_text, if_neg (by rw [hb]; decide), if_neg hdup,
      if_pos rfl]
    rw [finalizeRealtimeSink]
    intro hlt
    rw [add_zero] at hlt
    exact absurd hlt (not_lt.2 hle)

/-- Claim C4 witness. -/
theorem suppression_window_noop_witness :
    process_realtime_update ⟨[], [], 1⟩ ("a").toList 0 true 512 none
      = (false, [], ⟨[], [], 1⟩)
    ∧ ¬((5 : ℚ) < (finalize_text ⟨[], [], 1⟩ ("a").toList 0 0 true 512
          none).2.2.suppress_realtime_until) := by
  have h := suppression_window_noop ⟨[], [], 1⟩ ("a").toList ("a").toList
    0 5 true 512 none
  exact ⟨h.1 (by decide), h.2 (by decide) (by decide) (by decide)⟩

/-- Claim C5: the redundancy test is true exactly when the last finalized
text is non-empty, both normalized strings are non-empty and the
normalized finalized text starts with the normalized candidate; the
spec example holds, and a realtime update whose text is redundant with
the state's last finalized text is processed into zero edit operations,
`False`, and an unchanged state. -/
theorem redundancy_characterization :
    (∀ c f, isRedundantWithFinalized c f = true ↔
      f ≠ [] ∧ normalize c ≠ [] ∧ normalize f ≠ []
        ∧ pyStartsWith (normalize f) (normalize c) = true)
    ∧ isRedundantWithFinalized ("the sky is blue").toList
        ("The sky is blue.").toList = true
    ∧ (∀ st text now enabled B failAt,
        isRedundantWithFinalized text st.last_finalized_text = true →
        process_realtime_update st text now enabled B failAt
          = (false, [], st)) := by
  refine ⟨?_, by decide, ?_⟩
  · intro c f
    rw [isRedundantWithFinalized]
    by_cases hf : f = []
    · rw [if_pos hf]
      constructor
      · intro h
        cases h
      · intro h
        exact absurd hf h.1
    · rw [if_neg hf]
      simp only [Bool.and_eq_true, Bool.not_eq_true', List.isEmpty_eq_false]
      constructor
      · intro ⟨⟨hc, hg⟩, hs⟩
        exact ⟨hf, hc, hg, hs⟩
      · intro ⟨_, hc, hg, hs⟩
        exact ⟨⟨hc, hg⟩, hs⟩
  · intro st text now enabled B failAt hred
    rw [process_realtime_update]
    by_cases h1 : isBlank text = true
    · rw [if_pos h1]
    · rw [if_neg h1]
      cases enabled with
      | false => rw [if_pos (show (!false) = true from rfl)]
      | true =>
        rw [if_neg (by decide)]
        by_cases h2 : now < st.suppress_realtime_until
        · rw [if_pos h2]
        · rw [if_neg h2, if_pos hred]

/-- Claim C5 witness. -/
theorem redundancy_characterization_witness :
    process_realtime_update
        ⟨[], ("The sky is blue.").toList, 0⟩
        ("the sky is blue").toList 5 true 512 none
      = (false, [], ⟨[], ("The sky is blue.").toList, 0⟩) :=
  redundancy_characterization.2.2
    ⟨[], ("The sky is blue.").toList, 0⟩
    ("the sky is blue").toList 5 true 512 none (by decide)

/-- Claim C3 (amended: a Final event that is blank — empty or
whitespace-only — is also dropped with no operations and no state change,
by the intake guard that runs before the duplicate check): with realtime
echo enabled, a Final equal to the last finalized text is dropped with no
operations and no state change; an accepted non-blank Final emits the
planned edits and sets `last_typed_text := ""`,
`last_finalized_text := text` and the suppression deadline to
`now + window`; consequently an immediately repeated Final with the same
text is dropped, so two consecutive equal non-blank Finals produce exactly
one accepted edit sequence. -/
theorem finalize_transition (st : LiveState) (text : List Char)
    (now now2 window : ℚ) (B : Nat) :
    (text = st.last_finalized_text →
      finalize_text st text now window true B none = (false, [], st))
    ∧ (isBlank text = false → text ≠ st.last_finalized_text →
        finalize_text st text now window true B none
          = (true, finalizePlan st.last_typed_text text B,
             ⟨[], text, now + window⟩)
        ∧ finalize_text ⟨[], text, now + window⟩ text now2 window true B none
          = (false, [], ⟨[], text, now + window⟩)) := by
  constructor
  · intro hdup
    rw [finalize_text]
    by_cases h1 : isBlank text = true
    · rw [if_pos h1]
    · rw [if_neg h1, if_pos hdup]
  · intro hb hdup
    constructor
    · rw [finalize_text, if_neg (by rw [hb]; decide), if_neg hdup,
        if_pos rfl]
      rw [finalizeRealtimeSink]
    · rw [finalize_text, if_neg (by rw [hb]; decide)]
      rw [if_pos rfl]

/-- Claim C3 witness. -/
theorem finalize_transition_witness :
    finalize_text ⟨("Hello wor").toList, [], 0⟩ ("Hello world").toList
        10 (1/2) true 512 none
      = (true, finalizePlan ("Hello wor").toList ("Hello world").toList 512,
         ⟨[], ("Hello world").toList, 10 + 1/2⟩)
    ∧ finalize_text ⟨[], ("Hello world").toList, 10 + 1/2⟩
        ("Hello world").toList 11 (1/2) true 512 none
      = (false, [], ⟨[], ("Hello world").toList, 10 + 1/2⟩) :=
  (finalize_transition ⟨("Hello wor").toList, [], 0⟩ ("Hello world").toList
    10 11 (1/2) 512).2 (by decide) (by decide)

/-- Claim C3 counterexample: a whitespace-only Final event whose text
differs from the last finalized text is dropped by the blank-input guard:
contrary to the claimed dichotomy, no state field is updated although the
text differs from `last_finalized_text`. -/
theorem finalize_blank_counterexample :
    finalize_text ⟨[], ("x").toList, 0⟩ (" ").toList 10 (1/2) true 512 none
      = (false, [], ⟨[], ("x").toList, 0⟩)
    ∧ (" ").toList ≠ ("x").toList
    ∧ (finalize_text ⟨[], ("x").toList, 0⟩ (" ").toList 10 (1/2) true 512
        none).2.2.last_finalized_text ≠ (" ").toList := by
  exact ⟨by decide, by decide, by decide⟩

/-- Claim C6 (amended: the two recovery policies differ — when the sink
raises during a realtime update, the remaining operations are abandoned,
nothing escapes the engine, and `last_typed_text` is reset to the empty
string; when the sink raises during a finalization, the remaining
operations are abandoned, nothing escapes, `finalize_text` returns
`False`, and the state — including `last_typed_text` — is left entirely
unchanged, with no reset). -/
theorem sink_failure_recovery (st : LiveState) (text : List Char)
    (now window : ℚ) (B k : Nat) :
    (text ≠ [] → k < (realtimePlan st.last_typed_text text B).length →
      typeRealtimeTextSink st text B (some k)
        = ((realtimePlan st.last_typed_text text B).take k,
           { st with last_typed_text := [] }))
    ∧ (isBlank text = false → text ≠ st.last_finalized_text →
        k < (finalizePlan st.last_typed_text text B).length →
        finalize_text st text now window true B (some k)
          = (false, (finalizePlan st.last_typed_text text B).take k, st)) := by
  constructor
  · intro ht hk
    rw [typeRealtimeTextSink, if_neg ht]
    exact if_pos hk
  · intro hb hdup hk
    rw [finalize_text, if_neg (by rw [hb]; decide), if_neg hdup,
      if_pos rfl, finalizeRealtimeSink]
    exact if_pos hk

/-- Claim C6 witness. -/
theorem sink_failure_recovery_witness :
    typeRealtimeTextSink ⟨("ab").toList, [], 0⟩ ("q").toList 512 (some 1)
      = ((realtimePlan ("ab").toList ("q").toList 512).take 1, ⟨[], [], 0⟩)
    ∧ finalize_text ⟨("ab").toList, [], 0⟩ ("q").toList 10 (1/2) true 512
        (some 1)
      = (false, (finalizePlan ("ab").toList ("q").toList 512).take 1,
         ⟨("ab").toList, [], 0⟩) := by
  have h := sink_failure_recovery ⟨("ab").toList, [], 0⟩ ("q").toList
    10 (1/2) 512 1
  exact ⟨h.1 (by decide) (by decide), h.2 (by decide) (by decide) (by decide)⟩

/-- Claim C6 counterexample: when the sink raises on the very first
operation of a finalization, `last_typed_text` remains `"abc"` instead of
being reset to the empty string as the claim asserts for finalization. -/
theorem sink_failure_finalize_counterexample :
    finalize_text ⟨("abc").toList, [], 0⟩ ("z").toList 10 (1/2) true 512
        (some 0)
      = (false, [], ⟨("abc").toList, [], 0⟩)
    ∧ (finalize_text ⟨("abc").toList, [], 0⟩ ("z").toList 10 (1/2) true 512
        (some 0)).2.2.last_typed_text ≠ [] := by
  exact ⟨by decide, by decide⟩

/-- Claim C7 (amended: the configuration layer performs no validation at
all — a non-positive `max_backspaces_per_update` or a negative
`finalize_suppress_window` supplied at load time is accepted verbatim: no
error is raised, session start does not fail, and the values are not
clamped either). -/
theorem config_no_validation (r : RealtimeSettings) :
    loadRealtimeSection (some r) = Except.ok r := rfl

/-- Claim C7 counterexample: loading a realtime section carrying a
negative suppression window and a zero backspace bound succeeds,
returning exactly those values, although the claim requires session start
to fail with an `InvalidConfiguration` error. -/
theorem config_accepts_invalid :
    loadRealtimeSection (some invalidRealtimeSettings)
      = Except.ok invalidRealtimeSettings
    ∧ invalidRealtimeSettings.finalize_suppress_window < 0
    ∧ ¬(0 < invalidRealtimeSettings.max_backspaces_per_update) :=
  ⟨rfl, by decide, by decide⟩

end STT

